import Mathlib

/-!
Verification development for the rsmailcheck header-decoding pipeline
(`src/main.rs`).  The Rust functions `decode_charset_crate`, `parse_encoding`,
`parse_header` and `parse_file` are embedded as executable Lean functions over
`List Char` / `List Nat` (bytes), and the specification's claims about them are
settled as theorems.

External crates used by the code (`encoding_rs`, `quoted_printable`, `base64`,
`regex`) are modelled from their documented behaviour at the granularity the
program exercises; the repository's own functions are translated line by line.
-/

set_option maxRecDepth 4000

/-! ## ASCII / character helpers mirroring Rust std -/

/-- The Unicode `White_Space` set used by Rust `str::trim_start`. -/
def isRustWhitespace (c : Char) : Bool :=
  [' ', '\t', '\n', '\x0b', '\x0c', '\r', '\u0085', ' ', ' ',
   ' ', ' ', ' ', ' ', ' ', ' ', ' ',
   ' ', ' ', ' ', ' ', ' ', ' ', ' ',
   ' ', '　'].contains c

/-- Rust `str::trim_start` (drop leading whitespace). -/
def rustTrimStart (l : List Char) : List Char := l.dropWhile isRustWhitespace

/-- Rust `str::to_ascii_uppercase` (ASCII-only, like Lean `Char.toUpper`). -/
def asciiUpper (s : String) : String := String.mk (s.data.map Char.toUpper)

/-- Rust `str::to_ascii_lowercase` (ASCII-only, like Lean `Char.toLower`). -/
def asciiLower (s : String) : String := String.mk (s.data.map Char.toLower)

/-- Rust `line.starts_with(pre)` for string patterns. -/
def rustStartsWith (s pre : String) : Bool := pre.data.isPrefixOf s.data

/-- UTF-8 encoding of one scalar value (Rust `str` bytes). -/
def utf8Encode (c : Char) : List Nat :=
  let n := c.toNat
  if n < 0x80 then [n]
  else if n < 0x800 then [0xC0 + n / 64, 0x80 + n % 64]
  else if n < 0x10000 then
    [0xE0 + n / 4096, 0x80 + (n / 64) % 64, 0x80 + n % 64]
  else
    [0xF0 + n / 262144, 0x80 + (n / 4096) % 64, 0x80 + (n / 64) % 64,
     0x80 + n % 64]

/-- The byte sequence of a Rust `&str` (UTF-8). -/
def strToBytes (s : String) : List Nat := (s.data.map utf8Encode).flatten

/-- Strict UTF-8 decoding of a byte sequence, rejecting overlong forms,
surrogates and out-of-range values, exactly as Rust
`String::from_utf8` / `fs::read_to_string` do.  `none` means the bytes are
not valid UTF-8. -/
def utf8DecodeStrict : List Nat → Option (List Char)
  | [] => some []
  | b :: bs =>
    if b < 0x80 then
      (utf8DecodeStrict bs).map (fun cs => Char.ofNat b :: cs)
    else if 0xC2 ≤ b ∧ b ≤ 0xDF then
      match bs with
      | b2 :: bs2 =>
        if 0x80 ≤ b2 ∧ b2 ≤ 0xBF then
          (utf8DecodeStrict bs2).map
            (fun cs => Char.ofNat ((b - 0xC0) * 64 + (b2 - 0x80)) :: cs)
        else none
      | [] => none
    else if 0xE0 ≤ b ∧ b ≤ 0xEF then
      match bs with
      | b2 :: b3 :: bs3 =>
        if ((if b = 0xE0 then 0xA0 else 0x80) ≤ b2 ∧
            b2 ≤ (if b = 0xED then 0x9F else 0xBF)) ∧
           (0x80 ≤ b3 ∧ b3 ≤ 0xBF) then
          (utf8DecodeStrict bs3).map
            (fun cs =>
              Char.ofNat ((b - 0xE0) * 4096 + (b2 - 0x80) * 64 + (b3 - 0x80))
                :: cs)
        else none
      | _ => none
    else if 0xF0 ≤ b ∧ b ≤ 0xF4 then
      match bs with
      | b2 :: b3 :: b4 :: bs4 =>
        if ((if b = 0xF0 then 0x90 else 0x80) ≤ b2 ∧
            b2 ≤ (if b = 0xF4 then 0x8F else 0xBF)) ∧
           (0x80 ≤ b3 ∧ b3 ≤ 0xBF) ∧ (0x80 ≤ b4 ∧ b4 ≤ 0xBF) then
          (utf8DecodeStrict bs4).map
            (fun cs =>
              Char.ofNat ((b - 0xF0) * 262144 + (b2 - 0x80) * 4096 +
                (b3 - 0x80) * 64 + (b4 - 0x80)) :: cs)
        else none
      | _ => none
    else none

/-- Lossy UTF-8 decoding with U+FFFD substitution (encoding_rs `UTF_8.decode`),
using the WHATWG maximal-subpart error recovery.  The fuel only bounds the
loop — every step consumes at least one byte, so `utf8DecodeLossy` below
supplies enough. -/
def utf8DecodeLossyF : Nat → List Nat → List Char
  | _, [] => []
  | 0, _ => []
  | fuel + 1, b :: bs =>
    if b < 0x80 then Char.ofNat b :: utf8DecodeLossyF fuel bs
    else if 0xC2 ≤ b ∧ b ≤ 0xDF then
      match bs with
      | b2 :: bs2 =>
        if 0x80 ≤ b2 ∧ b2 ≤ 0xBF then
          Char.ofNat ((b - 0xC0) * 64 + (b2 - 0x80)) ::
            utf8DecodeLossyF fuel bs2
        else '�' :: utf8DecodeLossyF fuel (b2 :: bs2)
      | [] => ['�']
    else if 0xE0 ≤ b ∧ b ≤ 0xEF then
      match bs with
      | b2 :: bs2 =>
        if (if b = 0xE0 then 0xA0 else 0x80) ≤ b2 ∧
           b2 ≤ (if b = 0xED then 0x9F else 0xBF) then
          match bs2 with
          | b3 :: bs3 =>
            if 0x80 ≤ b3 ∧ b3 ≤ 0xBF then
              Char.ofNat ((b - 0xE0) * 4096 + (b2 - 0x80) * 64 + (b3 - 0x80))
                :: utf8DecodeLossyF fuel bs3
            else '�' :: utf8DecodeLossyF fuel (b3 :: bs3)
          | [] => ['�']
        else '�' :: utf8DecodeLossyF fuel (b2 :: bs2)
      | [] => ['�']
    else if 0xF0 ≤ b ∧ b ≤ 0xF4 then
      match bs with
      | b2 :: bs2 =>
        if (if b = 0xF0 then 0x90 else 0x80) ≤ b2 ∧
           b2 ≤ (if b = 0xF4 then 0x8F else 0xBF) then
          match bs2 with
          | b3 :: bs3 =>
            if 0x80 ≤ b3 ∧ b3 ≤ 0xBF then
              match bs3 with
              | b4 :: bs4 =>
                if 0x80 ≤ b4 ∧ b4 ≤ 0xBF then
                  Char.ofNat ((b - 0xF0) * 262144 + (b2 - 0x80) * 4096 +
                    (b3 - 0x80) * 64 + (b4 - 0x80)) ::
                    utf8DecodeLossyF fuel bs4
                else '�' :: utf8DecodeLossyF fuel (b4 :: bs4)
              | [] => ['�']
            else '�' :: utf8DecodeLossyF fuel (b3 :: bs3)
          | [] => ['�']
        else '�' :: utf8DecodeLossyF fuel (b2 :: bs2)
      | [] => ['�']
    else '�' :: utf8DecodeLossyF fuel bs

/-- Lossy UTF-8 decoding of a whole byte sequence (fuel is the byte
count). -/
def utf8DecodeLossy (bs : List Nat) : List Char :=
  utf8DecodeLossyF bs.length bs

/-- Lossy UTF-16 decoding (the WHATWG shared UTF-16 decoder used by
encoding_rs): bytes are paired into code units (`le` selects the byte
order), a valid surrogate pair yields its supplementary code point, and an
unpaired surrogate or trailing lone byte yields U+FFFD.  The fuel only
bounds the loop — every step consumes at least one byte, so
`utf16DecodeLossy` below supplies enough. -/
def utf16DecodeLossyF : Nat → Bool → List Nat → List Char
  | _, _, [] => []
  | 0, _, _ => []
  | _ + 1, _, [_] => ['�']
  | fuel + 1, le, b1 :: b2 :: rest =>
    let u := if le then b2 * 256 + b1 else b1 * 256 + b2
    if u < 0xD800 ∨ 0xE000 ≤ u then
      Char.ofNat u :: utf16DecodeLossyF fuel le rest
    else if u ≤ 0xDBFF then
      match rest with
      | c1 :: c2 :: rest2 =>
        let v := if le then c2 * 256 + c1 else c1 * 256 + c2
        if 0xDC00 ≤ v ∧ v ≤ 0xDFFF then
          Char.ofNat (0x10000 + (u - 0xD800) * 1024 + (v - 0xDC00)) ::
            utf16DecodeLossyF fuel le rest2
        else '�' :: utf16DecodeLossyF fuel le (c1 :: c2 :: rest2)
      | [_] => ['�', '�']
      | [] => ['�']
    else '�' :: utf16DecodeLossyF fuel le rest

/-- Lossy UTF-16 decoding of a whole byte sequence (fuel is the byte
count). -/
def utf16DecodeLossy (le : Bool) (bs : List Nat) : List Char :=
  utf16DecodeLossyF bs.length le bs

/-! ## Model of the encoding_rs charset layer -/

/-- One byte of Windows-1252 decoded to its Unicode scalar (the WHATWG
windows-1252 table: bytes 0x80..0x9F go through the table below, everything
else maps to the identical code point). -/
def w1252Char (b : Nat) : Char :=
  if b < 0x80 ∨ 0xA0 ≤ b then Char.ofNat b
  else
    match b with
    | 0x80 => Char.ofNat 0x20AC
    | 0x82 => Char.ofNat 0x201A
    | 0x83 => Char.ofNat 0x0192
    | 0x84 => Char.ofNat 0x201E
    | 0x85 => Char.ofNat 0x2026
    | 0x86 => Char.ofNat 0x2020
    | 0x87 => Char.ofNat 0x2021
    | 0x88 => Char.ofNat 0x02C6
    | 0x89 => Char.ofNat 0x2030
    | 0x8A => Char.ofNat 0x0160
    | 0x8B => Char.ofNat 0x2039
    | 0x8C => Char.ofNat 0x0152
    | 0x8E => Char.ofNat 0x017D
    | 0x91 => Char.ofNat 0x2018
    | 0x92 => Char.ofNat 0x2019
    | 0x93 => Char.ofNat 0x201C
    | 0x94 => Char.ofNat 0x201D
    | 0x95 => Char.ofNat 0x2022
    | 0x96 => Char.ofNat 0x2013
    | 0x97 => Char.ofNat 0x2014
    | 0x98 => Char.ofNat 0x02DC
    | 0x99 => Char.ofNat 0x2122
    | 0x9A => Char.ofNat 0x0161
    | 0x9B => Char.ofNat 0x203A
    | 0x9C => Char.ofNat 0x0153
    | 0x9E => Char.ofNat 0x017E
    | 0x9F => Char.ofNat 0x0178
    | x => Char.ofNat x

/-- The character-set codecs this program's inputs resolve to: the two
label families exercised here plus the UTF-16 variants reachable through
BOM sniffing.  The WHATWG label table of encoding_rs covers many more
encodings; the model treats every other label as unknown. -/
inductive Codec where
  | utf8
  | windows1252
  | utf16le
  | utf16be
deriving DecidableEq

/-- Lossy decode of a byte sequence by one fixed codec (encoding_rs
`decode_without_bom_handling`, which never fails: malformed sequences
become U+FFFD). -/
def decodeCodec : Codec → List Nat → String
  | Codec.utf8, bs => String.mk (utf8DecodeLossy bs)
  | Codec.windows1252, bs => String.mk (bs.map w1252Char)
  | Codec.utf16le, bs => String.mk (utf16DecodeLossy true bs)
  | Codec.utf16be, bs => String.mk (utf16DecodeLossy false bs)

/-- Whether a byte sequence begins with a UTF-8 or UTF-16 byte-order
mark. -/
def hasBom : List Nat → Bool
  | 0xEF :: 0xBB :: 0xBF :: _ => true
  | 0xFF :: 0xFE :: _ => true
  | 0xFE :: 0xFF :: _ => true
  | _ => false

/-- Model of encoding_rs `Encoding.decode` (the method called at
src/main.rs:25), including its documented BOM sniffing: if the bytes begin
with a UTF-8 or UTF-16 byte-order mark, the BOM's encoding is used instead
of the given one and the BOM is removed; otherwise the given codec decodes
all the bytes. -/
def decodeWithBomSniffing (e : Codec) (bs : List Nat) : String :=
  match bs with
  | 0xEF :: 0xBB :: 0xBF :: rest => decodeCodec Codec.utf8 rest
  | 0xFF :: 0xFE :: rest => decodeCodec Codec.utf16le rest
  | 0xFE :: 0xFF :: rest => decodeCodec Codec.utf16be rest
  | _ => decodeCodec e bs

/-- WHATWG labels resolving to UTF-8. -/
def utf8Labels : List String :=
  ["unicode-1-1-utf-8", "unicode11utf8", "unicode20utf8", "utf-8", "utf8",
   "x-unicode20utf8"]

/-- WHATWG labels resolving to windows-1252. -/
def windows1252Labels : List String :=
  ["ansi_x3.4-1968", "ascii", "cp1252", "cp819", "csisolatin1", "ibm819",
   "iso-8859-1", "iso-ir-100", "iso8859-1", "iso88591", "iso_8859-1",
   "iso_8859-1:1987", "l1", "latin1", "us-ascii", "windows-1252", "x-cp1252"]

/-- ASCII whitespace trimmed by encoding_rs `Encoding::for_label`. -/
def isAsciiWsByte (c : Char) : Bool :=
  c = ' ' || c = '\t' || c = '\n' || c = '\x0c' || c = '\r'

/-- Model of encoding_rs `Encoding::for_label`: trim ASCII whitespace,
lowercase, then look the label up; `none` for a label that is not in the
table. -/
def forLabel (label : String) : Option Codec :=
  let norm :=
    String.mk
      ((((asciiLower label).data.dropWhile isAsciiWsByte).reverse.dropWhile
          isAsciiWsByte).reverse)
  if utf8Labels.contains norm then some Codec.utf8
  else if windows1252Labels.contains norm then some Codec.windows1252
  else none

/-- Rust `s.replace("_", " ")` for the single-character pattern. -/
def replaceUnderscores (s : String) : String :=
  String.mk (s.data.map (fun c => if c = '_' then ' ' else c))

/-- Embedding of `decode_charset_crate` (src/main.rs:19-30): resolve the
lowercased label, falling back to WINDOWS_1252 when the label is unknown,
decode the bytes with `Encoding.decode` (BOM-sniffing, never fails), then
replace every underscore by a space. -/
def decode_charset_crate (charset : String) (encoded_text : List Nat) :
    Except String String :=
  let encoder := (forLabel (asciiLower charset)).getD Codec.windows1252
  Except.ok (replaceUnderscores (decodeWithBomSniffing encoder encoded_text))

/-! ## Transport decoders (quoted_printable and base64 crates) -/

/-- Hex digit value of a byte, accepting both cases (the crates parse hex via
`from_str_radix(_, 16)`). -/
def hexVal (b : Nat) : Option Nat :=
  if 0x30 ≤ b ∧ b ≤ 0x39 then some (b - 0x30)
  else if 0x41 ≤ b ∧ b ≤ 0x46 then some (b - 0x41 + 10)
  else if 0x61 ≤ b ∧ b ≤ 0x66 then some (b - 0x61 + 10)
  else none

/-- Model of `quoted_printable::decode` in `ParseMode::Robust`: `=XY` with two
hex digits is the byte `0xXY`, `=` before a line break is a soft break, and
any other `=` is passed through literally instead of failing.  (The crate's
trimming of transport padding before a hard CRLF cannot trigger here: the
payloads decoded by this program are single header-line fragments.) -/
def qpDecodeRobustF : Nat → List Nat → List Nat
  | _, [] => []
  | 0, l => l
  | fuel + 1, 0x3D :: rest =>
    (match rest with
     | b1 :: b2 :: rest2 =>
       match hexVal b1, hexVal b2 with
       | some h1, some h2 => (h1 * 16 + h2) :: qpDecodeRobustF fuel rest2
       | _, _ =>
         if b1 = 0x0D ∧ b2 = 0x0A then qpDecodeRobustF fuel rest2
         else if b1 = 0x0A then qpDecodeRobustF fuel (b2 :: rest2)
         else 0x3D :: qpDecodeRobustF fuel (b1 :: b2 :: rest2)
     | [b1] => [0x3D, b1]
     | [] => [0x3D])
  | fuel + 1, b :: rest => b :: qpDecodeRobustF fuel rest

/-- Quoted-printable robust decode of a whole byte sequence (fuel is the
byte count; every step consumes at least one byte). -/
def qpDecodeRobust (l : List Nat) : List Nat := qpDecodeRobustF l.length l

/-- Value of one symbol of the standard Base64 alphabet. -/
def b64Val (c : Char) : Option Nat :=
  if 'A' ≤ c ∧ c ≤ 'Z' then some (c.toNat - 65)
  else if 'a' ≤ c ∧ c ≤ 'z' then some (c.toNat - 97 + 26)
  else if '0' ≤ c ∧ c ≤ '9' then some (c.toNat - 48 + 52)
  else if c = '+' then some 62
  else if c = '/' then some 63
  else none

/-- Model of `BASE64_STANDARD.decode`: standard alphabet, canonical padding
required, nonzero trailing bits rejected; `none` is the decode error. -/
def base64Decode : List Char → Option (List Nat)
  | [] => some []
  | a :: b :: c :: d :: rest =>
    (match b64Val a, b64Val b with
     | some va, some vb =>
       if rest.isEmpty ∧ c = '=' ∧ d = '=' then
         if vb % 16 = 0 then some [va * 4 + vb / 16] else none
       else if rest.isEmpty ∧ d = '=' then
         match b64Val c with
         | some vc =>
           if vc % 4 = 0 then
             some [va * 4 + vb / 16, (vb % 16) * 16 + vc / 4]
           else none
         | none => none
       else
         match b64Val c, b64Val d, base64Decode rest with
         | some vc, some vd, some tail =>
           some ((va * 4 + vb / 16) :: ((vb % 16) * 16 + vc / 4) ::
             ((vc % 4) * 64 + vd) :: tail)
         | _, _, _ => none
     | _, _ => none)
  | _ => none

/-- The transport-decoding step of `parse_encoding` (src/main.rs:90-95):
uppercase the encoding letter; `Q` is quoted-printable (robust), `B` is
strict standard base64, anything else is an error carrying the letter. -/
def transportDecode (encoding data : String) : Except String (List Nat) :=
  let v := asciiUpper encoding
  if v = "Q" then Except.ok (qpDecodeRobust (strToBytes data))
  else if v = "B" then
    match base64Decode data.data with
    | some w => Except.ok w
    | none => Except.error "base64 error"
  else Except.error ("Unknown encoding type, " ++ v)

/-- Embedding of `parse_encoding` (src/main.rs:90-101): transport-decode the
payload, then run the charset layer; a transport error is returned as-is. -/
def parse_encoding (charset encoding data : String) : Except String String :=
  match transportDecode encoding data with
  | Except.ok v => decode_charset_crate charset v
  | Except.error e => Except.error e

/-! ## Model of the regex token scanner of `parse_header`

The pattern compiled at src/main.rs:104 is `=\?([^?]+)\?([^?]+)\?(.*?)\?=`.
At a fixed start position a match is forced: the charset is the maximal
nonempty run of non-`?` characters after `=?`, then a literal `?`, the
encoding likewise, then a literal `?`, and the lazy payload is the shortest
run of non-newline characters followed by `?=`.  `replace_all` takes
leftmost, non-overlapping matches and passes everything between them
through unchanged. -/

/-- Lazy payload scan: the shortest prefix (of non-newline characters)
followed by the literal `?=`; returns the payload and the remainder after
the closing `?=`. -/
def findPayload : List Char → Option (List Char × List Char)
  | [] => none
  | c :: cs =>
    if c = '?' ∧ cs.head? = some '=' then some ([], cs.tail)
    else if c = '\n' then none
    else (findPayload cs).map (fun pr => (c :: pr.1, pr.2))

/-- Scan one `[^?]+\?` field of the pattern: the maximal (necessarily
nonempty) run of non-`?` characters, which must be followed by a literal
`?`; returns the field and the remainder after the `?`. -/
def splitField (l : List Char) : Option (List Char × List Char) :=
  match l.dropWhile (fun c => c ≠ '?') with
  | '?' :: r =>
    if (l.takeWhile (fun c => c ≠ '?')).isEmpty then none
    else some (l.takeWhile (fun c => c ≠ '?'), r)
  | _ => none

/-- Attempt to match the encoded-word pattern at the head of the list.
On success, returns (charset, encoding, payload, whole match, remainder). -/
def matchAt (l : List Char) :
    Option (List Char × List Char × List Char × List Char × List Char) :=
  match l with
  | '=' :: '?' :: r1 =>
    match splitField r1 with
    | some (csn, r3) =>
      match splitField r3 with
      | some (en, r5) =>
        match findPayload r5 with
        | some (p, rest) =>
          some (csn, en, p,
            '=' :: '?' :: (csn ++ '?' :: (en ++ '?' :: (p ++ ['?', '=']))),
            rest)
        | none => none
      | none => none
    | none => none
  | _ => none

/-- The replacement computed for one matched token by the closure at
src/main.rs:106-123: decode it with `parse_encoding`; on any error the
original matched text (delimiters included) is substituted and the error
is printed to stderr (a no-op in this model). -/
def decodeToken (charset encoding payload whole : List Char) : List Char :=
  match parse_encoding (String.mk charset) (String.mk encoding)
      (String.mk payload) with
  | Except.ok s => s.data
  | Except.error _ => whole

/-- One fuel-indexed step list of `replace_all`: scan left to right, replace
each leftmost match and continue after it, copy non-matching characters.
The fuel only bounds the recursion; `replaceTokens` supplies enough. -/
def replaceTokensF : Nat → List Char → List Char
  | _, [] => []
  | 0, l => l
  | fuel + 1, c :: cs =>
    match matchAt (c :: cs) with
    | some (csn, en, p, whole, rest) =>
      decodeToken csn en p whole ++ replaceTokensF fuel rest
    | none => c :: replaceTokensF fuel cs

/-- `Regex::replace_all` over the whole value. -/
def replaceTokens (l : List Char) : List Char := replaceTokensF l.length l

/-- Embedding of `parse_header` (src/main.rs:103-126): trim leading
whitespace, then replace every encoded-word match.  (`Regex::new` on the
fixed pattern cannot fail, so the Rust `Result` is always `Ok`.) -/
def parse_header (header : String) : String :=
  String.mk (replaceTokens (rustTrimStart header.data))

/-- Whether some suffix of the value matches the encoded-word pattern,
i.e. whether the value contains an encoded-word token. -/
def hasToken : List Char → Bool
  | [] => false
  | c :: cs => (matchAt (c :: cs)).isSome || hasToken cs

/-! ## Model of `parse_file` (src/main.rs:134-175) -/

/-- The result record built by `parse_file` (struct `MailInfo`,
src/main.rs:128-132); `fromH` stands for the Rust field `from`. -/
structure MailInfo where
  fromH : Option String
  subject : Option String
deriving DecidableEq

/-- Rust `str::trim_start_matches`: repeatedly remove the pattern from the
front while it is a prefix (the fuel only bounds the recursion; callers
supply the string length, which suffices for a nonempty pattern). -/
def stripAllF (pat : List Char) : Nat → List Char → List Char
  | 0, l => l
  | fuel + 1, l =>
    if pat ≠ [] ∧ pat.isPrefixOf l then
      stripAllF pat fuel (l.drop pat.length)
    else l

/-- Rust `s.trim_start_matches(pat)`. -/
def trimStartMatches (pat s : String) : String :=
  String.mk (stripAllF pat.data s.data.length s.data)

/-- Whether the first of the remaining lines begins with a space (the
continuation test of the inner `while` at src/main.rs:146-152). -/
def headStartsSpace : List String → Bool
  | [] => false
  | l :: _ => rustStartsWith l " "

/-- The main loop of `parse_file` (src/main.rs:142-167), one fuel unit per
iteration of the outer `while`.  State: `sl` is the never-cleared
`subject_lines` accumulator, `subj` and `frm` the `subject` and `from`
variables.  A line starting with `Subject:` is pushed together with all
immediately following lines that start with a space, and `subject` is
recomputed from the concatenation of the whole accumulator; a line starting
with `From:` overwrites `from`; every other line is skipped.  The loop runs
to the end of the lines — there is no stop at an empty line.  (`parse_header`
always returns `Ok`, so the Rust `Err` arms are dead.) -/
def goLinesF : Nat → List String → Option String → Option String →
    List String → MailInfo
  | _, _, subj, frm, [] => { fromH := frm, subject := subj }
  | 0, _, subj, frm, _ => { fromH := frm, subject := subj }
  | fuel + 1, sl, subj, frm, line :: rest =>
    if rustStartsWith line "Subject:" then
      let conts := rest.takeWhile (fun l => rustStartsWith l " ")
      let rest2 := rest.dropWhile (fun l => rustStartsWith l " ")
      let sl2 := sl ++ (line :: conts)
      let s := String.join sl2
      goLinesF fuel sl2
        (some (parse_header (trimStartMatches "Subject:" s))) frm rest2
    else if rustStartsWith line "From:" then
      goLinesF fuel sl subj
        (some (parse_header (trimStartMatches "From:" line))) rest
    else goLinesF fuel sl subj frm rest

/-- `parse_file`'s header scan applied to the lines of a message (fuel is
the line count, one outer iteration consumes at least one line). -/
def parseLines (ls : List String) : MailInfo :=
  goLinesF ls.length [] none none ls

/-- Remove the single `\r` of a `\r\n` line ending, as Rust `str::lines`
does for every line that is terminated by a `\n`. -/
def stripTrailCR (l : List Char) : List Char :=
  if l.getLast? = some '\r' then l.dropLast else l

/-- Rust `str::lines` over a character list (fuel bounds the loop; each
iteration past the first consumes the `\n` separator).  A `\r` before a
`\n` terminator is stripped; a final unterminated line is kept verbatim,
trailing `\r` included, as `str::lines` does. -/
def linesSplitF : Nat → List Char → List (List Char)
  | _, [] => []
  | 0, l => [l]
  | fuel + 1, l =>
    match l.dropWhile (fun c => c ≠ '\n') with
    | [] => [l.takeWhile (fun c => c ≠ '\n')]
    | _ :: rest =>
      stripTrailCR (l.takeWhile (fun c => c ≠ '\n')) :: linesSplitF fuel rest

/-- Rust `contents.lines()` collected into a list of strings. -/
def rustLines (s : String) : List String :=
  (linesSplitF s.data.length s.data).map String.mk

/-- Embedding of `parse_file` (src/main.rs:134-175) at the byte level:
`fs::read_to_string` yields the file's bytes decoded as strict UTF-8, or
the `InvalidData` error that the `?` operator propagates for the whole
message; on success the header scan runs over the lines. -/
def parse_file (bytes : List Nat) : Except String MailInfo :=
  match utf8DecodeStrict bytes with
  | none => Except.error "stream did not contain valid UTF-8"
  | some chars =>
    let ls := rustLines (String.mk chars)
    Except.ok (goLinesF ls.length [] none none ls)

/-! ## Structural lemmas about the charset layer and the token scanner -/

/-- On bytes that do not begin with a byte-order mark, `Encoding.decode`
reduces to the plain decode of the given codec. -/
theorem decodeWithBomSniffing_no_bom {e : Codec} {bs : List Nat}
    (h : hasBom bs = false) :
    decodeWithBomSniffing e bs = decodeCodec e bs := by
  unfold decodeWithBomSniffing
  split
  · simp [hasBom] at h
  · simp [hasBom] at h
  · simp [hasBom] at h
  · rfl

/-- A successful payload scan decomposes its input as payload, `?=`,
remainder. -/
theorem findPayload_append :
    ∀ (l pl r : List Char), findPayload l = some (pl, r) →
      l = pl ++ '?' :: '=' :: r := by
  intro l
  induction l with
  | nil => intro pl r h; simp [findPayload] at h
  | cons c cs ih =>
    intro pl r h
    unfold findPayload at h
    by_cases h1 : c = '?' ∧ cs.head? = some '='
    · rw [if_pos h1] at h
      obtain ⟨hc, hh⟩ := h1
      cases cs with
      | nil => simp at hh
      | cons d ds =>
        simp only [List.head?_cons, Option.some.injEq] at hh
        simp only [List.tail_cons, Option.some.injEq, Prod.mk.injEq] at h
        obtain ⟨hpl, hr⟩ := h
        subst hpl; subst hr; subst hc; subst hh
        rfl
    · rw [if_neg h1] at h
      by_cases h2 : c = '\n'
      · rw [if_pos h2] at h; simp at h
      · rw [if_neg h2] at h
        cases hfp : findPayload cs with
        | none => rw [hfp] at h; simp at h
        | some pr =>
          obtain ⟨p2, r2⟩ := pr
          rw [hfp] at h
          simp only [Option.map_some', Option.some.injEq, Prod.mk.injEq] at h
          obtain ⟨hpl, hr⟩ := h
          subst hpl; subst hr
          rw [ih p2 r2 hfp]
          rfl

/-- The head of a `dropWhile` result fails the predicate. -/
theorem dropWhile_head_false {α : Type} (p : α → Bool) :
    ∀ (l : List α) (q : α) (r : List α),
      l.dropWhile p = q :: r → p q = false := by
  intro l
  induction l with
  | nil => intro q r h; simp at h
  | cons a as ih =>
    intro q r h
    cases hpa : p a with
    | true =>
      simp only [List.dropWhile_cons, hpa, if_true] at h
      exact ih q r h
    | false =>
      simp only [List.dropWhile_cons, hpa, Bool.false_eq_true, if_false] at h
      obtain ⟨h1, -⟩ := List.cons.inj h
      rw [← h1]
      exact hpa

/-- A successful field scan decomposes its input as the nonempty field, a
`?`, and the remainder. -/
theorem splitField_decomp {l f r : List Char}
    (h : splitField l = some (f, r)) :
    l = f ++ '?' :: r ∧ f ≠ [] := by
  unfold splitField at h
  split at h
  · rename_i r2 heq
    split at h
    · simp at h
    · rename_i hne
      simp only [Option.some.injEq, Prod.mk.injEq] at h
      obtain ⟨hf, hr⟩ := h
      subst hf; subst hr
      refine ⟨?_, ?_⟩
      · have e : l.takeWhile (fun c => (c ≠ '?' : Bool)) ++
            l.dropWhile (fun c => (c ≠ '?' : Bool)) = l :=
          List.takeWhile_append_dropWhile _ _
        rw [heq] at e
        exact e.symm
      · intro hnil
        rw [hnil] at hne
        exact hne rfl
  · simp at h

/-- A successful match at the head decomposes the input as the whole matched
text followed by the remainder, and the matched text is nonempty. -/
theorem matchAt_decomp {l csn en p whole rest : List Char}
    (h : matchAt l = some (csn, en, p, whole, rest)) :
    l = whole ++ rest ∧ whole ≠ [] := by
  unfold matchAt at h
  split at h
  · rename_i r1
    split at h
    · rename_i csn1 r3 h1
      split at h
      · rename_i en1 r5 h2
        split at h
        · rename_i p1 rest1 h3
          simp only [Option.some.injEq, Prod.mk.injEq] at h
          obtain ⟨hc, he, hp, hw, hr⟩ := h
          subst hc; subst he; subst hp; subst hw; subst hr
          have e1 := (splitField_decomp h1).1
          have e2 := (splitField_decomp h2).1
          have e3 := findPayload_append r5 p1 rest1 h3
          refine ⟨?_, ?_⟩
          · rw [e1, e2, e3]
            simp [List.append_assoc]
          · simp
        · simp at h
      · simp at h
    · simp at h
  · simp at h

/-- The remainder after a successful match is strictly shorter than the
input. -/
theorem matchAt_rest_length {l csn en p whole rest : List Char}
    (h : matchAt l = some (csn, en, p, whole, rest)) :
    rest.length < l.length := by
  obtain ⟨hl, hw⟩ := matchAt_decomp h
  rw [hl, List.length_append]
  cases whole with
  | nil => exact absurd rfl hw
  | cons a as =>
    simp only [List.length_cons]
    omega

/-- The fuel argument of `replaceTokensF` is irrelevant once it bounds the
input length. -/
theorem replaceTokensF_congr :
    ∀ (n m : Nat) (l : List Char), l.length ≤ n → l.length ≤ m →
      replaceTokensF n l = replaceTokensF m l := by
  intro n
  induction n with
  | zero =>
    intro m l hn _
    have hl : l = [] := List.length_eq_zero.mp (Nat.le_zero.mp hn)
    subst hl
    cases m <;> rfl
  | succ n ih =>
    intro m l hn hm
    cases l with
    | nil => cases m <;> rfl
    | cons c cs =>
      cases m with
      | zero => simp at hm
      | succ m =>
        cases hmt : matchAt (c :: cs) with
        | some r =>
          obtain ⟨csn, en, p, whole, rest⟩ := r
          have hlt := matchAt_rest_length hmt
          simp only [List.length_cons] at hn hm hlt
          have e1 : replaceTokensF (n + 1) (c :: cs) =
              decodeToken csn en p whole ++ replaceTokensF n rest := by
            show (match matchAt (c :: cs) with
              | some (csn, en, p, whole, rest) =>
                decodeToken csn en p whole ++ replaceTokensF n rest
              | none => c :: replaceTokensF n cs) = _
            rw [hmt]
          have e2 : replaceTokensF (m + 1) (c :: cs) =
              decodeToken csn en p whole ++ replaceTokensF m rest := by
            show (match matchAt (c :: cs) with
              | some (csn, en, p, whole, rest) =>
                decodeToken csn en p whole ++ replaceTokensF m rest
              | none => c :: replaceTokensF m cs) = _
            rw [hmt]
          rw [e1, e2, ih m rest (by omega) (by omega)]
        | none =>
          simp only [List.length_cons] at hn hm
          have e1 : replaceTokensF (n + 1) (c :: cs) =
              c :: replaceTokensF n cs := by
            show (match matchAt (c :: cs) with
              | some (csn, en, p, whole, rest) =>
                decodeToken csn en p whole ++ replaceTokensF n rest
              | none => c :: replaceTokensF n cs) = _
            rw [hmt]
          have e2 : replaceTokensF (m + 1) (c :: cs) =
              c :: replaceTokensF m cs := by
            show (match matchAt (c :: cs) with
              | some (csn, en, p, whole, rest) =>
                decodeToken csn en p whole ++ replaceTokensF m rest
              | none => c :: replaceTokensF m cs) = _
            rw [hmt]
          rw [e1, e2, ih m cs (by omega) (by omega)]

/-- `replace_all` step on a position where the pattern does not match: the
character is passed through unchanged. -/
theorem replaceTokens_cons_none {c : Char} {cs : List Char}
    (h : matchAt (c :: cs) = none) :
    replaceTokens (c :: cs) = c :: replaceTokens cs := by
  unfold replaceTokens
  simp only [List.length_cons]
  show (match matchAt (c :: cs) with
    | some (csn, en, p, whole, rest) =>
      decodeToken csn en p whole ++ replaceTokensF cs.length rest
    | none => c :: replaceTokensF cs.length cs) = _
  rw [h]

/-- `replace_all` step on a leftmost match: the token's replacement is
emitted and scanning resumes after the whole match, so tokens are decoded
independently and matches cannot overlap. -/
theorem replaceTokens_cons_some
    {c : Char} {cs csn en p whole rest : List Char}
    (h : matchAt (c :: cs) = some (csn, en, p, whole, rest)) :
    replaceTokens (c :: cs) =
      decodeToken csn en p whole ++ replaceTokens rest := by
  unfold replaceTokens
  simp only [List.length_cons]
  have hlt := matchAt_rest_length h
  simp only [List.length_cons] at hlt
  have e1 : replaceTokensF (cs.length + 1) (c :: cs) =
      decodeToken csn en p whole ++ replaceTokensF cs.length rest := by
    show (match matchAt (c :: cs) with
      | some (csn, en, p, whole, rest) =>
        decodeToken csn en p whole ++ replaceTokensF cs.length rest
      | none => c :: replaceTokensF cs.length cs) = _
    rw [h]
  rw [e1]
  congr 1
  exact replaceTokensF_congr cs.length rest.length rest (by omega) (le_refl _)

/-- If no suffix of the value matches the pattern, `replace_all` is the
identity. -/
theorem replaceTokens_id_of_no_token :
    ∀ (l : List Char), hasToken l = false → replaceTokens l = l := by
  intro l
  induction l with
  | nil => intro _; rfl
  | cons c cs ih =>
    intro h
    unfold hasToken at h
    cases hmt : matchAt (c :: cs) with
    | some r => rw [hmt] at h; simp at h
    | none =>
      rw [hmt] at h
      simp only [Option.isSome_none, Bool.false_or] at h
      rw [replaceTokens_cons_none hmt, ih h]

/-- Dropping a prefix cannot create a token. -/
theorem hasToken_dropWhile {q : Char → Bool} :
    ∀ (l : List Char), hasToken l = false →
      hasToken (l.dropWhile q) = false := by
  intro l
  induction l with
  | nil => intro _; rfl
  | cons c cs ih =>
    intro h
    have h2 : hasToken cs = false := by
      unfold hasToken at h
      cases hmt : matchAt (c :: cs) with
      | some r => rw [hmt] at h; simp at h
      | none => rw [hmt] at h; simpa using h
    rw [List.dropWhile_cons]
    by_cases hq : q c = true
    · rw [if_pos hq]; exact ih h2
    · rw [if_neg hq]; exact h

/-- A line starting with `From:` does not start with `Subject:`. -/
theorem from_not_subject {f : String}
    (h : rustStartsWith f "From:" = true) :
    rustStartsWith f "Subject:" = false := by
  unfold rustStartsWith at h ⊢
  have hF : "From:".data = ['F', 'r', 'o', 'm', ':'] := rfl
  have hS : "Subject:".data = ['S', 'u', 'b', 'j', 'e', 'c', 't', ':'] := rfl
  rw [hF] at h
  rw [hS]
  cases hd : f.data with
  | nil => rw [hd] at h; simp [List.isPrefixOf] at h
  | cons c cs =>
    rw [hd] at h
    simp only [List.isPrefixOf, Bool.and_eq_true, beq_iff_eq] at h
    obtain ⟨hc, -⟩ := h
    subst hc
    simp [List.isPrefixOf]

/-! ## Claims -/

/-- C1 (corrected): header extraction does not stop at the first empty line.
The amended statement proved here: the scan of `parse_file` treats an empty
line like any other non-header line — it is skipped and processing
continues with the remaining lines — so the whole file, body included, is
scanned, and a body line starting with `Subject:` contributes to the
result. -/
theorem c1_empty_line_skipped :
    (∀ (fuel : Nat) (sl : List String) (subj frm : Option String)
       (rest : List String),
       goLinesF (fuel + 1) sl subj frm ("" :: rest) =
         goLinesF fuel sl subj frm rest) ∧
    parseLines ["From: a", "", "Subject: sneaky"] =
      { fromH := some "a", subject := some "sneaky" } := by
  constructor
  · intro fuel sl subj frm rest
    have h1 : rustStartsWith "" "Subject:" = false := rfl
    have h2 : rustStartsWith "" "From:" = false := rfl
    simp [goLinesF, h1, h2]
  · decide

/-- C1, counterexample to the claim as stated: in a message whose header
block (before the first empty line) has no `Subject` header, a body line
starting with `Subject:` nevertheless determines the result, so lines
after the first empty line are inspected. -/
theorem c1_counterexample :
    (parseLines ["From: a", "", "Subject: sneaky"]).subject =
      some "sneaky" := by decide

/-- C2 (corrected): later duplicate occurrences of a wanted header are not
ignored.  The amended statement proved here: a later `From:` line
overwrites the previously retained value whatever it was (so the last
occurrence wins), and for `Subject` the never-cleared accumulator makes a
later occurrence re-parse the concatenation of all `Subject` lines seen so
far. -/
theorem c2_later_occurrence_overwrites :
    (∀ (fuel : Nat) (sl : List String) (subj frm : Option String)
       (f : String) (rest : List String),
       rustStartsWith f "From:" = true →
       goLinesF (fuel + 1) sl subj frm (f :: rest) =
         goLinesF fuel sl subj
           (some (parse_header (trimStartMatches "From:" f))) rest) ∧
    parseLines ["From: a", "From: b"] =
      { fromH := some "b", subject := none } ∧
    parseLines ["Subject: a", "Subject: b"] =
      { fromH := none, subject := some "aSubject: b" } := by
  refine ⟨?_, by decide, by decide⟩
  intro fuel sl subj frm f rest h
  have hns := from_not_subject h
  simp [goLinesF, hns, h]

/-- C2, witness: the general overwrite step applied at a concrete state in
which `from` already holds `"a"`, discharging the prefix hypothesis. -/
theorem c2_witness :
    goLinesF 1 [] none (some "a") ["From: b"] =
      goLinesF 0 [] none
        (some (parse_header (trimStartMatches "From:" "From: b"))) [] :=
  c2_later_occurrence_overwrites.1 0 [] none (some "a") "From: b" []
    (by decide)

/-- C2, counterexample to the claim as stated: with two `From` headers the
retained value is the second one, not the first. -/
theorem c2_counterexample :
    (parseLines ["From: a", "From: b"]).fromH = some "b" ∧
    ("b" : String) ≠ "a" := by decide

/-- C3 (corrected): header-name matching is case-sensitive, not
case-insensitive.  The amended statement proved here: only lines beginning
with the exact texts `Subject:` or `From:` are recognized; any line
matching neither prefix exactly (including case variants of the wanted
names) is skipped without effect. -/
theorem c3_prefix_match_case_sensitive :
    (∀ (fuel : Nat) (sl : List String) (subj frm : Option String)
       (line : String) (rest : List String),
       rustStartsWith line "Subject:" = false →
       rustStartsWith line "From:" = false →
       goLinesF (fuel + 1) sl subj frm (line :: rest) =
         goLinesF fuel sl subj frm rest) ∧
    parseLines ["from: x"] = { fromH := none, subject := none } ∧
    parseLines ["From: x"] = { fromH := some "x", subject := none } := by
  refine ⟨?_, by decide, by decide⟩
  intro fuel sl subj frm line rest h1 h2
  simp [goLinesF, h1, h2]

/-- C3, witness: the skip step applied to a concrete unrelated header line,
discharging both prefix hypotheses. -/
theorem c3_witness :
    goLinesF 1 [] none none ["X-Mailer: x"] = goLinesF 0 [] none none [] :=
  c3_prefix_match_case_sensitive.1 0 [] none none "X-Mailer: x" []
    (by decide) (by decide)

/-- C3, counterexample to the claim as stated: `SUBJECT:` differs from
`Subject:` only in letter case, yet it is not recognized, while the
canonical casing is. -/
theorem c3_counterexample :
    (parseLines ["SUBJECT: hi"]).subject = none ∧
    (parseLines ["Subject: hi"]).subject = some "hi" := by decide

/-- C4 (corrected): unfolding does not strip the fold-introducing
whitespace and does not apply to `From`.  The amended statement proved
here: for a `Subject` header, each immediately following line that starts
with a space character (and only with a space — not a tab) is appended
verbatim, leading space included, to the accumulated value; a `From`
header is taken from its single line only. -/
theorem c4_subject_fold_keeps_whitespace :
    (∀ (fuel : Nat) (sl : List String) (subj frm : Option String)
       (s c : String) (rest : List String),
       rustStartsWith s "Subject:" = true →
       rustStartsWith c " " = true →
       headStartsSpace rest = false →
       goLinesF (fuel + 1) sl subj frm (s :: c :: rest) =
         goLinesF fuel (sl ++ [s, c])
           (some (parse_header (trimStartMatches "Subject:"
             (String.join (sl ++ [s, c]))))) frm rest) ∧
    (parseLines ["From: A", " B"]).fromH = some "A" ∧
    (parseLines ["Subject: A", "\tB"]).subject = some "A" := by
  refine ⟨?_, by decide, by decide⟩
  intro fuel sl subj frm s c rest h1 h2 h3
  cases rest with
  | nil => simp [goLinesF, h1, h2]
  | cons r rs =>
    have hr : rustStartsWith r " " = false := by
      simpa [headStartsSpace] using h3
    simp [goLinesF, h1, h2, hr]

/-- C4, witness: the fold step applied to a concrete folded `Subject`
header, discharging all three hypotheses. -/
theorem c4_witness :
    goLinesF 1 [] none none ["Subject: Hello", " World"] =
      goLinesF 0 ["Subject: Hello", " World"]
        (some (parse_header (trimStartMatches "Subject:"
          (String.join ["Subject: Hello", " World"])))) none [] :=
  c4_subject_fold_keeps_whitespace.1 0 [] none none
    "Subject: Hello" " World" [] (by decide) (by decide) (by decide)

/-- C4, counterexample to the claim as stated: the folded `Subject` value
keeps the fold-introducing space (`"Hello World"`, not `"HelloWorld"`), a
continuation after `From` is discarded, and a tab continuation is not
recognized at all. -/
theorem c4_counterexample :
    (parseLines ["Subject: Hello", " World"]).subject =
      some "Hello World" ∧
    ("Hello World" : String) ≠ "HelloWorld" ∧
    (parseLines ["From: A", " B"]).fromH = some "A" := by decide

/-- C5 (corrected): on a value with no encoded-word token the decoder is
the identity only after trimming leading whitespace.  The amended
statement proved here: if no suffix of the value matches the encoded-word
pattern, `parse_header` returns the input with its leading whitespace
removed and nothing else changed. -/
theorem c5_no_token_identity_after_trim (s : String)
    (h : hasToken s.data = false) :
    parse_header s = String.mk (rustTrimStart s.data) := by
  unfold parse_header
  congr 1
  apply replaceTokens_id_of_no_token
  unfold rustTrimStart
  exact hasToken_dropWhile s.data h

/-- C5, witness: the trimmed-identity theorem applied to the concrete value
`" abc"`, discharging the no-token hypothesis. -/
theorem c5_witness :
    hasToken (" abc" : String).data = false ∧
    parse_header " abc" = String.mk (rustTrimStart (" abc" : String).data) :=
  ⟨by decide, c5_no_token_identity_after_trim " abc" (by decide)⟩

/-- C5, counterexample to the claim as stated: a token-free value with
leading whitespace is not returned exactly — the leading whitespace is
trimmed. -/
theorem c5_counterexample :
    parse_header " abc" = "abc" ∧ ("abc" : String) ≠ " abc" := by decide

/-- C6 (confirmed): a token whose transport-encoding letter is neither `Q`
nor `B` (after ASCII uppercasing) makes `parse_encoding` return the
reported error carrying the letter, and `parse_header` substitutes the
original token text unchanged — the whole decode still returns a string. -/
theorem c6_unknown_encoding_token_unchanged :
    (∀ charset encoding data : String,
       asciiUpper encoding ≠ "Q" → asciiUpper encoding ≠ "B" →
       parse_encoding charset encoding data =
         Except.error ("Unknown encoding type, " ++ asciiUpper encoding)) ∧
    parse_header "=?UTF-8?X?abc?=" = "=?UTF-8?X?abc?=" := by
  constructor
  · intro charset encoding data hq hb
    simp only [parse_encoding, transportDecode]
    rw [if_neg hq, if_neg hb]
  · decide

/-- C6, witness: the error result at the concrete token parts of
`=?UTF-8?X?abc?=`, discharging both inequality hypotheses. -/
theorem c6_witness :
    parse_encoding "UTF-8" "X" "abc" =
      Except.error "Unknown encoding type, X" :=
  c6_unknown_encoding_token_unchanged.1 "UTF-8" "X" "abc"
    (by decide) (by decide)

/-- C7 (corrected): charset transcoding never fails — every call returns an
`Ok` string — but the unknown-label fallback is not universally the
Windows-1252 interpretation: `Encoding.decode` first sniffs for a
byte-order mark.  The amended statement proved here: for an unrecognized
label, bytes that do not begin with a BOM are interpreted as Windows-1252,
while bytes beginning with the UTF-8, UTF-16LE or UTF-16BE BOM are decoded
with the BOM's encoding, the BOM stripped. -/
theorem c7_charset_fallback_with_bom_sniffing :
    (∀ (charset : String) (bytes : List Nat),
       ∃ out, decode_charset_crate charset bytes = Except.ok out) ∧
    (∀ (charset : String) (bytes : List Nat),
       forLabel (asciiLower charset) = none → hasBom bytes = false →
       decode_charset_crate charset bytes =
         Except.ok (replaceUnderscores
           (decodeCodec Codec.windows1252 bytes))) ∧
    (∀ (charset : String) (bytes : List Nat),
       forLabel (asciiLower charset) = none →
       decode_charset_crate charset (0xEF :: 0xBB :: 0xBF :: bytes) =
         Except.ok (replaceUnderscores (decodeCodec Codec.utf8 bytes)) ∧
       decode_charset_crate charset (0xFF :: 0xFE :: bytes) =
         Except.ok (replaceUnderscores (decodeCodec Codec.utf16le bytes)) ∧
       decode_charset_crate charset (0xFE :: 0xFF :: bytes) =
         Except.ok (replaceUnderscores (decodeCodec Codec.utf16be bytes))) := by
  refine ⟨?_, ?_, ?_⟩
  · intro charset bytes
    exact ⟨_, rfl⟩
  · intro charset bytes h hb
    unfold decode_charset_crate
    rw [h]
    show Except.ok (replaceUnderscores
      (decodeWithBomSniffing Codec.windows1252 bytes)) = _
    rw [decodeWithBomSniffing_no_bom hb]
  · intro charset bytes h
    refine ⟨?_, ?_, ?_⟩ <;>
      · unfold decode_charset_crate
        rw [h]
        rfl

/-- C7, witness: the fallback applied to the unmapped label `x-unknown` —
once on the BOM-free bytes `A`, `_`, `0xE9` (Windows-1252 gives `"A é"`
after underscore replacement), once on UTF-8-BOM-prefixed bytes (decoded
as UTF-8, BOM stripped, underscore replaced) — discharging the
unknown-label and no-BOM hypotheses. -/
theorem c7_witness :
    decode_charset_crate "x-unknown" [65, 95, 233] = Except.ok "A é" ∧
    decode_charset_crate "x-unknown" [0xEF, 0xBB, 0xBF, 0x5F] =
      Except.ok " " :=
  ⟨(c7_charset_fallback_with_bom_sniffing.2.1 "x-unknown" [65, 95, 233]
      (by decide) (by decide)),
   (c7_charset_fallback_with_bom_sniffing.2.2 "x-unknown" [0x5F]
      (by decide)).1⟩

/-- C7, counterexample to the claim as stated: for the unrecognized label
`x-unknown`, the decoded bytes `EF BB BF 41` (a UTF-8 BOM followed by `A`)
are not interpreted with the Windows-1252 fallback codec — the program
yields `"A"` via BOM sniffing, while the Windows-1252 interpretation would
be `"ï»¿A"`. -/
theorem c7_counterexample :
    forLabel (asciiLower "x-unknown") = none ∧
    decode_charset_crate "x-unknown" [0xEF, 0xBB, 0xBF, 0x41] =
      Except.ok "A" ∧
    replaceUnderscores (decodeCodec Codec.windows1252
      [0xEF, 0xBB, 0xBF, 0x41]) = "ï»¿A" ∧
    ("A" : String) ≠ "ï»¿A" :=
  ⟨by decide, rfl, by decide, by decide⟩

/-- C8 (confirmed): for every token whose transport decode succeeds —
whether `Q` or `B` — the result is the charset-transcoded (BOM-sniffed)
text with every underscore replaced by a space; concretely both the
Q-encoded and the B-encoded forms of `Hello_World` decode to
`Hello World`. -/
theorem c8_underscore_replaced_after_transcoding :
    (∀ (charset encoding data : String) (v : List Nat),
       transportDecode encoding data = Except.ok v →
       parse_encoding charset encoding data =
         Except.ok (replaceUnderscores
           (decodeWithBomSniffing ((forLabel (asciiLower charset)).getD
             Codec.windows1252) v))) ∧
    parse_header "=?UTF-8?Q?Hello_World?=" = "Hello World" ∧
    parse_header "=?UTF-8?B?SGVsbG9fV29ybGQ=?=" = "Hello World" := by
  refine ⟨?_, by decide, by decide⟩
  intro charset encoding data v h
  unfold parse_encoding
  rw [h]
  rfl

/-- C8, witness: the general statement applied to the Q-encoded payload
`Hello_World`, discharging the transport-decode hypothesis. -/
theorem c8_witness :
    parse_encoding "UTF-8" "Q" "Hello_World" = Except.ok "Hello World" :=
  c8_underscore_replaced_after_transcoding.1 "UTF-8" "Q" "Hello_World"
    (strToBytes "Hello_World") rfl

/-- C9 (confirmed): the scanner takes leftmost non-overlapping matches,
decodes each token independently, and passes the text between matches
through unchanged; concretely the two-token header decodes to `Hi There`
with its separating space preserved. -/
theorem c9_multiple_tokens_decoded_independently :
    parse_header "=?UTF-8?Q?Hi?= =?UTF-8?Q?There?=" = "Hi There" ∧
    (∀ (c : Char) (cs : List Char), matchAt (c :: cs) = none →
       replaceTokens (c :: cs) = c :: replaceTokens cs) ∧
    (∀ (l csn en p whole rest : List Char),
       matchAt l = some (csn, en, p, whole, rest) →
       replaceTokens l = decodeToken csn en p whole ++ replaceTokens rest) := by
  refine ⟨by decide, ?_, ?_⟩
  · intro c cs h
    exact replaceTokens_cons_none h
  · intro l csn en p whole rest h
    cases l with
    | nil => simp [matchAt] at h
    | cons c cs => exact replaceTokens_cons_some h

/-- C9, witness: the pass-through step at a non-matching position and the
independent-decode step at a matching position, both at concrete inputs
with their match hypotheses discharged. -/
theorem c9_witness :
    (replaceTokens [' ', 'x'] = ' ' :: replaceTokens ['x']) ∧
    (replaceTokens ("=?UTF-8?Q?Hi?=" : String).data =
      decodeToken ("UTF-8" : String).data ("Q" : String).data
        ("Hi" : String).data ("=?UTF-8?Q?Hi?=" : String).data ++
        replaceTokens []) :=
  ⟨c9_multiple_tokens_decoded_independently.2.1 ' ' ['x'] (by decide),
   c9_multiple_tokens_decoded_independently.2.2
     ("=?UTF-8?Q?Hi?=" : String).data ("UTF-8" : String).data
     ("Q" : String).data ("Hi" : String).data
     ("=?UTF-8?Q?Hi?=" : String).data [] (by decide)⟩

/-- C10 (confirmed): `parse_file` fails for the whole message exactly when
the file's bytes are not valid UTF-8 — the error of `fs::read_to_string`
is propagated by `?` before any header is examined — and succeeds with a
header mapping on any valid-UTF-8 byte sequence. -/
theorem c10_invalid_utf8_file_error :
    (∀ bytes : List Nat, utf8DecodeStrict bytes = none →
       parse_file bytes =
         Except.error "stream did not contain valid UTF-8") ∧
    (∀ (bytes : List Nat) (chars : List Char),
       utf8DecodeStrict bytes = some chars →
       ∃ m, parse_file bytes = Except.ok m) := by
  constructor
  · intro bytes h
    unfold parse_file
    rw [h]
  · intro bytes chars h
    unfold parse_file
    rw [h]
    exact ⟨_, rfl⟩

/-- C10, witness: a message whose headers are fine but whose body contains
the invalid byte 0xFF is rejected whole, and a tiny valid file parses;
both hypotheses discharged by evaluation. -/
theorem c10_witness :
    parse_file (strToBytes "From: a\n\n" ++ [255]) =
      Except.error "stream did not contain valid UTF-8" ∧
    ∃ m, parse_file [65] = Except.ok m :=
  ⟨c10_invalid_utf8_file_error.1 (strToBytes "From: a\n\n" ++ [255])
     (by decide),
   c10_invalid_utf8_file_error.2 [65] ['A'] (by decide)⟩
